import Mathlib

/-!
Verification of the Chess-Boot rules engine.

This file gives a shallow embedding of the two JavaScript chess engines of the
repository and proves the specified properties about them:

* namespace `Engine` models `src/engine/engine.js` (the CommonJS engine whose
  `applyMove` raises an explicit error on an empty `from` square);
* namespace `Proto` models `src/chess-prototype/src/engine/engine.js` (the full
  engine with pseudo-legal generation, legality filtering, status evaluation and
  Zobrist hashing).

Boards are total functions on `Fin 8 × Fin 8`; coordinates that the JavaScript
code manipulates as plain numbers (which may leave the board) are modelled as
`Int` with an explicit conversion `toSquare?` mirroring the `inside` bounds
check.  JavaScript calls that can throw (`applyMove` on an empty square, the
en-passant removal row falling off the board) are modelled with `Option` or
`Except`: `none`/`.error` is a thrown exception, `some`/`.ok` a returned value.
-/

namespace Chess

inductive Color where
  | w : Color
  | b : Color
deriving DecidableEq

/-- `color === "w" ? "b" : "w"` -/
def Color.opp : Color → Color
  | .w => .b
  | .b => .w

inductive PieceType where
  | p : PieceType
  | n : PieceType
  | b : PieceType
  | r : PieceType
  | q : PieceType
  | k : PieceType
deriving DecidableEq

/-- a JS piece object `{ t, c }` -/
structure Piece where
  t : PieceType
  c : Color
deriving DecidableEq

/-- an in-range board square `{ r, f }` -/
structure Square where
  r : Fin 8
  f : Fin 8
deriving DecidableEq

/-- a JS move object; missing optional JS fields are `none` / `false`.
`from` and `to` are reserved words, hence the underscores. -/
structure Move where
  from_ : Square
  to_ : Square
  promotion : Option PieceType
  isEnPassant : Bool
  isCastling : Bool
deriving DecidableEq

/-- an 8×8 grid of optional pieces -/
def Board : Type := Fin 8 → Fin 8 → Option Piece

/-- `inside(r, f)` together with the conversion of raw numeric coordinates to a
square: `some` exactly when `r >= 0 && r < 8 && f >= 0 && f < 8`. -/
def toSquare? (r f : Int) : Option Square :=
  if h : 0 ≤ r ∧ r < 8 ∧ 0 ≤ f ∧ f < 8 then
    some ⟨⟨r.toNat, by omega⟩, ⟨f.toNat, by omega⟩⟩
  else none

/-- board assignment `board[sq.r][sq.f] = v` -/
def bset (b : Board) (sq : Square) (v : Option Piece) : Board :=
  fun r f => if r = sq.r ∧ f = sq.f then v else b r f

end Chess

namespace Engine

open Chess

/-- game state of `src/engine/engine.js` (`createInitialState` shape) -/
structure State where
  board : Board
  turn : Color
  whiteCanCastleK : Bool
  whiteCanCastleQ : Bool
  blackCanCastleK : Bool
  blackCanCastleQ : Bool
  enPassantTarget : Option Square
  halfmoveClock : Nat
  fullmoveNumber : Nat

/-- `capturedRow = state.turn === 'w' ? move.to.r + 1 : move.to.r - 1` -/
def capturedRow (turn : Color) (m : Move) : Int :=
  if turn = Color.w then (m.to_.r : Int) + 1 else (m.to_.r : Int) - 1

/-- does the old corner piece being a rook together with the corner now being
empty force the rights to clear (`engine.js` lines 79–82)? -/
def rookLeftCorner (oldB newB : Board) (r f : Fin 8) : Bool :=
  (match oldB r f with
   | some piece => piece.t = PieceType.r
   | none => false)
  && (newB r f).isNone

/-- `applyMove(state, move)` of `src/engine/engine.js`.

`Except.error` models a thrown JS exception: the explicit
`throw new Error('No piece at from')` on an empty `from` square, and the
`TypeError` raised when the en-passant captured row falls off the board
(`board[capturedRow]` is `undefined`). -/
def applyMove (s : State) (m : Move) : Except String State :=
  match s.board m.from_.r m.from_.f with
  | none => .error "No piece at from"
  | some fromPiece =>
    -- en passant: remove the captured pawn behind the destination
    let epBoard : Except String Board :=
      if m.isEnPassant then
        match toSquare? (capturedRow s.turn m) (m.to_.f : Int) with
        | some sq => .ok (bset s.board sq none)
        | none => .error "TypeError"
      else .ok s.board
    match epBoard with
    | .error e => .error e
    | .ok b1 =>
      -- castling rook relocation (king-side to.f = 6, queen-side to.f = 2)
      let b2 :=
        if m.isCastling ∧ fromPiece.t = PieceType.k then
          if m.to_.f = (6 : Fin 8) then
            bset (bset b1 ⟨m.from_.r, 5⟩ (b1 m.from_.r 7)) ⟨m.from_.r, 7⟩ none
          else if m.to_.f = (2 : Fin 8) then
            bset (bset b1 ⟨m.from_.r, 3⟩ (b1 m.from_.r 0)) ⟨m.from_.r, 0⟩ none
          else b1
        else b1
      -- place the mover (or the promotion piece), clear the origin
      let placed : Option Piece :=
        match m.promotion with
        | some t => some ⟨t, fromPiece.c⟩
        | none => some fromPiece
      let b3 := bset b2 m.to_ placed
      let b4 := bset b3 m.from_ none
      -- castling rights: king/rook departures
      let wK :=
        if fromPiece.t = PieceType.k ∧ fromPiece.c = Color.w then false
        else if fromPiece.t = PieceType.r ∧ fromPiece.c = Color.w
                ∧ m.from_.r = (7 : Fin 8) ∧ m.from_.f = (7 : Fin 8) then false
        else if rookLeftCorner s.board b4 7 7 then false
        else s.whiteCanCastleK
      let wQ :=
        if fromPiece.t = PieceType.k ∧ fromPiece.c = Color.w then false
        else if fromPiece.t = PieceType.r ∧ fromPiece.c = Color.w
                ∧ m.from_.r = (7 : Fin 8) ∧ m.from_.f = (0 : Fin 8) then false
        else if rookLeftCorner s.board b4 7 0 then false
        else s.whiteCanCastleQ
      let bK :=
        if fromPiece.t = PieceType.k ∧ fromPiece.c = Color.b then false
        else if fromPiece.t = PieceType.r ∧ fromPiece.c = Color.b
                ∧ m.from_.r = (0 : Fin 8) ∧ m.from_.f = (7 : Fin 8) then false
        else if rookLeftCorner s.board b4 0 7 then false
        else s.blackCanCastleK
      let bQ :=
        if fromPiece.t = PieceType.k ∧ fromPiece.c = Color.b then false
        else if fromPiece.t = PieceType.r ∧ fromPiece.c = Color.b
                ∧ m.from_.r = (0 : Fin 8) ∧ m.from_.f = (0 : Fin 8) then false
        else if rookLeftCorner s.board b4 0 0 then false
        else s.blackCanCastleQ
      -- enPassantTarget for a double pawn step
      let newEnPassant : Option Square :=
        if fromPiece.t = PieceType.p
            ∧ ((m.to_.r : Int) - (m.from_.r : Int)).natAbs = 2 then
          some ⟨⟨((m.to_.r : Nat) + (m.from_.r : Nat)) / 2, by
                  have := m.to_.r.isLt; have := m.from_.r.isLt; omega⟩,
                m.from_.f⟩
        else none
      -- halfmove clock
      let wasCapture := (s.board m.to_.r m.to_.f).isSome && !m.isEnPassant
      let h := if fromPiece.t = PieceType.p ∨ wasCapture = true then 0
               else s.halfmoveClock + 1
      .ok { board := b4
            turn := s.turn.opp
            whiteCanCastleK := wK
            whiteCanCastleQ := wQ
            blackCanCastleK := bK
            blackCanCastleQ := bQ
            enPassantTarget := newEnPassant
            halfmoveClock := h
            fullmoveNumber := if s.turn = Color.b then s.fullmoveNumber + 1
                              else s.fullmoveNumber }

end Engine

namespace Proto

open Chess

/-- the pseudo-random constants produced once by `createZobrist()`:
one per (color, piece-type, square), one side-to-move toggle, one per
castling-right flag (JS keys `K`, `Q`, `k`, `q`), one per en-passant file -/
structure Zobrist where
  table : Color → PieceType → Fin 8 → Fin 8 → Nat
  side : Nat
  castlingK : Nat
  castlingQ : Nat
  castlingKb : Nat
  castlingQb : Nat
  epFile : Fin 8 → Nat

/-- game state of `src/chess-prototype/src/engine/engine.js`; `positionCounts`
(a JS `Map` from hash to count) is modelled as an association list -/
structure State where
  board : Board
  turn : Color
  whiteCanCastleK : Bool
  whiteCanCastleQ : Bool
  blackCanCastleK : Bool
  blackCanCastleQ : Bool
  enPassantTarget : Option Square
  halfmoveClock : Nat
  fullmoveNumber : Nat
  lastMove : Option Move
  moveHistory : List String
  positionCounts : List (Nat × Nat)
  threefoldAvailable : Bool
  zobrist : Zobrist

/-- `computeHash(state)`: fold the zobrist constants of every present piece,
then the side / castling / en-passant-file toggles, with bitwise xor -/
def computeHash (s : State) : Nat :=
  let h0 := (List.finRange 8).foldl (fun h r =>
    (List.finRange 8).foldl (fun h f =>
      match s.board r f with
      | some piece => Nat.xor h (s.zobrist.table piece.c piece.t r f)
      | none => h) h) 0
  let h1 := if s.turn = Color.b then Nat.xor h0 s.zobrist.side else h0
  let h2 := if s.whiteCanCastleK then Nat.xor h1 s.zobrist.castlingK else h1
  let h3 := if s.whiteCanCastleQ then Nat.xor h2 s.zobrist.castlingQ else h2
  let h4 := if s.blackCanCastleK then Nat.xor h3 s.zobrist.castlingKb else h3
  let h5 := if s.blackCanCastleQ then Nat.xor h4 s.zobrist.castlingQb else h4
  match s.enPassantTarget with
  | some t => Nat.xor h5 (s.zobrist.epFile t.f)
  | none => h5

def knightD : List (Int × Int) :=
  [(-2, -1), (-2, 1), (-1, -2), (-1, 2), (1, -2), (1, 2), (2, -1), (2, 1)]

/-- the order the JS `for (dr) for (df)` loop visits the 8 king offsets -/
def kingD : List (Int × Int) :=
  [(-1, -1), (-1, 0), (-1, 1), (0, -1), (0, 1), (1, -1), (1, 0), (1, 1)]

def diagD : List (Int × Int) := [(-1, -1), (-1, 1), (1, -1), (1, 1)]

def straightD : List (Int × Int) := [(-1, 0), (1, 0), (0, -1), (0, 1)]

/-- is there a piece of the given type and color on the (possibly off-board)
coordinate? -/
def pieceAtIs (b : Board) (rr ff : Int) (t : PieceType) (c : Color) : Bool :=
  match toSquare? rr ff with
  | some sq =>
    match b sq.r sq.f with
    | some piece => decide (piece.t = t ∧ piece.c = c)
    | none => false
  | none => false

/-- walk one sliding ray of `isSquareAttacked`: the first occupied square along
the ray attacks iff it matches the condition of engine.js lines 624–630
(note: the source accepts a bishop on any direction with `|dr| = 1`, which
includes the two vertical directions). Fuel 8 covers the at most 7 steps a ray
can stay on the board. -/
def attackRay (b : Board) (byColor : Color) (dr df : Int) :
    Nat → Int → Int → Bool
  | 0, _, _ => false
  | fuel + 1, rr, ff =>
    match toSquare? rr ff with
    | none => false
    | some sq =>
      match b sq.r sq.f with
      | some piece =>
        decide (piece.c = byColor ∧ (piece.t = PieceType.q
          ∨ (piece.t = PieceType.b ∧ dr.natAbs = 1)
          ∨ (piece.t = PieceType.r ∧ dr * df = 0)))
      | none => attackRay b byColor dr df fuel (rr + dr) (ff + df)

/-- `isSquareAttacked(state, sq, byColor)` on raw numeric coordinates
(pawns, knights, merged sliding rays, adjacent king, in source order) -/
def isSquareAttackedI (s : State) (r f : Int) (byColor : Color) : Bool :=
  let pawnDirA : Int := if byColor = Color.w then 1 else -1
  ([-1, 1] : List Int).any (fun df =>
      pieceAtIs s.board (r + pawnDirA) (f + df) PieceType.p byColor)
  || knightD.any (fun d =>
      pieceAtIs s.board (r + d.1) (f + d.2) PieceType.n byColor)
  || (diagD ++ straightD).any (fun d =>
      attackRay s.board byColor d.1 d.2 8 (r + d.1) (f + d.2))
  || kingD.any (fun d =>
      pieceAtIs s.board (r + d.1) (f + d.2) PieceType.k byColor)

/-- all 64 squares in the row-major, then file-major scan order of the JS
`for (r) for (f)` loops -/
def allSquares : List Square :=
  (List.finRange 8).flatMap (fun r => (List.finRange 8).map (fun f => ⟨r, f⟩))

/-- `findKing(state, color)`: first square holding that color's king -/
def findKing (s : State) (c : Color) : Option Square :=
  allSquares.find? (fun sq =>
    match s.board sq.r sq.f with
    | some piece => decide (piece.t = PieceType.k ∧ piece.c = c)
    | none => false)

/-- `isInCheck(state, color)`: `false` when no king is found -/
def isInCheck (s : State) (c : Color) : Bool :=
  match findKing s c with
  | none => false
  | some king => isSquareAttackedI s (king.r : Int) (king.f : Int) c.opp

/-- a plain move `{ from, to }` with no optional flags -/
def mkMove (a b : Square) : Move := ⟨a, b, none, false, false⟩

/-- knight / king offset destinations: allowed if empty or enemy-occupied -/
def stepMoves (b : Board) (color : Color) (fromSq : Square)
    (ds : List (Int × Int)) : List Move :=
  ds.filterMap (fun d =>
    match toSquare? ((fromSq.r : Int) + d.1) ((fromSq.f : Int) + d.2) with
    | none => none
    | some sq =>
      match b sq.r sq.f with
      | some t => if t.c = color then none else some (mkMove fromSq sq)
      | none => some (mkMove fromSq sq))

/-- `rook && rook.t === "r" && rook.c === color` -/
def isRookOf (b : Board) (r f : Fin 8) (c : Color) : Bool :=
  match b r f with
  | some piece => decide (piece.t = PieceType.r ∧ piece.c = c)
  | none => false

/-- the castling candidates of the king branch of `getPseudoLegalMoves`:
rights flag set, in-between squares empty, own rook on the corner -/
def castleCands (s : State) (color : Color) (fromSq : Square) : List Move :=
  (if color = Color.w ∧ fromSq.r = (7 : Fin 8) ∧ fromSq.f = (4 : Fin 8) then
    (if s.whiteCanCastleK = true ∧ s.board 7 5 = none ∧ s.board 7 6 = none
        ∧ isRookOf s.board 7 7 Color.w = true then
      [⟨fromSq, ⟨7, 6⟩, none, false, true⟩] else [])
    ++ (if s.whiteCanCastleQ = true ∧ s.board 7 3 = none ∧ s.board 7 2 = none
        ∧ s.board 7 1 = none ∧ isRookOf s.board 7 0 Color.w = true then
      [⟨fromSq, ⟨7, 2⟩, none, false, true⟩] else [])
  else []) ++
  (if color = Color.b ∧ fromSq.r = (0 : Fin 8) ∧ fromSq.f = (4 : Fin 8) then
    (if s.blackCanCastleK = true ∧ s.board 0 5 = none ∧ s.board 0 6 = none
        ∧ isRookOf s.board 0 7 Color.b = true then
      [⟨fromSq, ⟨0, 6⟩, none, false, true⟩] else [])
    ++ (if s.blackCanCastleQ = true ∧ s.board 0 3 = none ∧ s.board 0 2 = none
        ∧ s.board 0 1 = none ∧ isRookOf s.board 0 0 Color.b = true then
      [⟨fromSq, ⟨0, 2⟩, none, false, true⟩] else [])
  else [])

/-- `const dir = p.c === "w" ? -1 : 1` -/
def pawnDir (c : Color) : Int := if c = Color.w then -1 else 1

/-- `const promotionRow = p.c === "w" ? 0 : 7` -/
def promoRow (c : Color) : Int := if c = Color.w then 0 else 7

/-- `const startRow = p.c === "w" ? 6 : 1` -/
def startRow (c : Color) : Fin 8 := if c = Color.w then 6 else 1

/-- the promotion loop choices `["q", "r", "b", "n"]` -/
def promoPieces : List PieceType :=
  [PieceType.q, PieceType.r, PieceType.b, PieceType.n]

/-- the four tagged promotion moves pushed for one destination -/
def promoMoves (fromSq sq : Square) : List Move :=
  promoPieces.map (fun t => ⟨fromSq, sq, some t, false, false⟩)

/-- the forward (and double-step) part of the pawn branch -/
def pawnForward (s : State) (fromSq : Square) (c : Color) : List Move :=
  match toSquare? ((fromSq.r : Int) + pawnDir c) (fromSq.f : Int) with
  | none => []
  | some sq1 =>
    if s.board sq1.r sq1.f = none then
      if (fromSq.r : Int) + pawnDir c = promoRow c then promoMoves fromSq sq1
      else
        mkMove fromSq sq1 ::
        (if fromSq.r = startRow c then
          match toSquare? ((fromSq.r : Int) + 2 * pawnDir c) (fromSq.f : Int) with
          | some sq2 =>
            if s.board sq2.r sq2.f = none then [mkMove fromSq sq2] else []
          | none => []
        else [])
    else []

/-- the en-passant candidate of one capture iteration: emitted (tagged, with
no promotion) exactly when the en-passant target matches the diagonal -/
def epCandidate (s : State) (fromSq sq : Square) (c : Color) (df : Int) :
    List Move :=
  match s.enPassantTarget with
  | some tgt =>
    if (tgt.r : Int) = (fromSq.r : Int) + pawnDir c
        ∧ (tgt.f : Int) = (fromSq.f : Int) + df then
      [⟨fromSq, sq, none, true, false⟩]
    else []
  | none => []

/-- one `df` iteration of the pawn capture loop: diagonal capture (with
promotion fan-out on the far rank) followed by the en-passant candidate -/
def pawnCaptureAt (s : State) (fromSq : Square) (c : Color) (df : Int) :
    List Move :=
  match toSquare? ((fromSq.r : Int) + pawnDir c) ((fromSq.f : Int) + df) with
  | none => []
  | some sq =>
    (match s.board sq.r sq.f with
     | some t =>
       if t.c = c.opp then
         if (fromSq.r : Int) + pawnDir c = promoRow c then promoMoves fromSq sq
         else [mkMove fromSq sq]
       else []
     | none => []) ++ epCandidate s fromSq sq c df

/-- the whole pawn branch: forward, then captures with `df = -1`, `df = 1` -/
def pawnMoves (s : State) (fromSq : Square) (c : Color) : List Move :=
  pawnForward s fromSq c ++ pawnCaptureAt s fromSq c (-1) ++ pawnCaptureAt s fromSq c 1

/-- one sliding direction: empty squares until the first occupied one, which is
included only as an enemy capture -/
def slideRay (b : Board) (color : Color) (fromSq : Square) (dr df : Int) :
    Nat → Int → Int → List Move
  | 0, _, _ => []
  | fuel + 1, rr, ff =>
    match toSquare? rr ff with
    | none => []
    | some sq =>
      match b sq.r sq.f with
      | none => mkMove fromSq sq :: slideRay b color fromSq dr df fuel (rr + dr) (ff + df)
      | some t => if t.c = color then [] else [mkMove fromSq sq]

def slideMoves (b : Board) (color : Color) (fromSq : Square)
    (dirs : List (Int × Int)) : List Move :=
  dirs.flatMap (fun d =>
    slideRay b color fromSq d.1 d.2 8 ((fromSq.r : Int) + d.1) ((fromSq.f : Int) + d.2))

/-- `getPseudoLegalMoves(state, from)` (empty square: empty list) -/
def getPseudoLegalMoves (s : State) (fromSq : Square) : List Move :=
  match s.board fromSq.r fromSq.f with
  | none => []
  | some piece =>
    match piece.t with
    | PieceType.n => stepMoves s.board piece.c fromSq knightD
    | PieceType.k => stepMoves s.board piece.c fromSq kingD ++ castleCands s piece.c fromSq
    | PieceType.p => pawnMoves s fromSq piece.c
    | PieceType.b => slideMoves s.board piece.c fromSq diagD
    | PieceType.r => slideMoves s.board piece.c fromSq straightD
    | PieceType.q => slideMoves s.board piece.c fromSq (diagD ++ straightD)

/-- the row of the pawn captured en passant:
`const cr = state.turn === "w" ? move.to.r + 1 : move.to.r - 1`, as a square
(`none` when the row leaves the board, which makes the JS code throw) -/
def epSquare? (s : State) (m : Move) : Option Square :=
  toSquare? (if s.turn = Color.w then (m.to_.r : Int) + 1 else (m.to_.r : Int) - 1)
    (m.to_.f : Int)

/-- the `captured` local of `applyMoveInternal`: the piece behind the
destination for en passant, otherwise the piece on the destination -/
def capturedPiece (s : State) (m : Move) : Option Piece :=
  if m.isEnPassant then
    match epSquare? s m with
    | some sq => s.board sq.r sq.f
    | none => none
  else s.board m.to_.r m.to_.f

/-- `captured?.t === "r" && captured.c === c && move.to` is the given corner -/
def rookCapturedOn (captured : Option Piece) (m : Move) (c : Color)
    (r f : Fin 8) : Bool :=
  match captured with
  | some piece =>
    decide (piece.t = PieceType.r ∧ piece.c = c ∧ m.to_.r = r ∧ m.to_.f = f)
  | none => false

/-- final value of `whiteCanCastleK` (only ever cleared, never set) -/
def wKAfter (s : State) (piece : Piece) (captured : Option Piece) (m : Move) : Bool :=
  if piece.t = PieceType.k ∧ piece.c = Color.w then false
  else if piece.t = PieceType.r ∧ piece.c = Color.w
      ∧ m.from_.r = (7 : Fin 8) ∧ m.from_.f = (7 : Fin 8) then false
  else if rookCapturedOn captured m Color.w 7 7 then false
  else s.whiteCanCastleK

/-- final value of `whiteCanCastleQ` -/
def wQAfter (s : State) (piece : Piece) (captured : Option Piece) (m : Move) : Bool :=
  if piece.t = PieceType.k ∧ piece.c = Color.w then false
  else if piece.t = PieceType.r ∧ piece.c = Color.w
      ∧ m.from_.r = (7 : Fin 8) ∧ m.from_.f = (0 : Fin 8) then false
  else if rookCapturedOn captured m Color.w 7 0 then false
  else s.whiteCanCastleQ

/-- final value of `blackCanCastleK` -/
def bKAfter (s : State) (piece : Piece) (captured : Option Piece) (m : Move) : Bool :=
  if piece.t = PieceType.k ∧ piece.c = Color.b then false
  else if piece.t = PieceType.r ∧ piece.c = Color.b
      ∧ m.from_.r = (0 : Fin 8) ∧ m.from_.f = (7 : Fin 8) then false
  else if rookCapturedOn captured m Color.b 0 7 then false
  else s.blackCanCastleK

/-- final value of `blackCanCastleQ` -/
def bQAfter (s : State) (piece : Piece) (captured : Option Piece) (m : Move) : Bool :=
  if piece.t = PieceType.k ∧ piece.c = Color.b then false
  else if piece.t = PieceType.r ∧ piece.c = Color.b
      ∧ m.from_.r = (0 : Fin 8) ∧ m.from_.f = (0 : Fin 8) then false
  else if rookCapturedOn captured m Color.b 0 0 then false
  else s.blackCanCastleQ

/-- `(move.to.r + move.from.r) / 2`, in range because both ranks are -/
def midRank (a b : Fin 8) : Fin 8 :=
  ⟨((a : Nat) + (b : Nat)) / 2, by have := a.isLt; have := b.isLt; omega⟩

/-- the new `enPassantTarget`: set iff a pawn advanced exactly two ranks -/
def epAfter (piece : Piece) (m : Move) : Option Square :=
  if piece.t = PieceType.p
      ∧ ((m.to_.r : Int) - (m.from_.r : Int)).natAbs = 2 then
    some ⟨midRank m.to_.r m.from_.r, m.from_.f⟩
  else none

/-- `const half = p.t === "p" || captured ? 0 : state.halfmoveClock + 1` -/
def halfAfter (s : State) (piece : Piece) (captured : Option Piece) : Nat :=
  if piece.t = PieceType.p ∨ captured.isSome = true then 0
  else s.halfmoveClock + 1

/-- the castling rook relocation of `applyMoveInternal` (`to.f = 6` king-side;
any other destination file is treated as queen-side by the source's `else`) -/
def castledBoard (m : Move) (b1 : Board) : Board :=
  if m.isCastling then
    if m.to_.f = (6 : Fin 8) then
      bset (bset b1 ⟨m.from_.r, 5⟩ (b1 m.from_.r 7)) ⟨m.from_.r, 7⟩ none
    else
      bset (bset b1 ⟨m.from_.r, 3⟩ (b1 m.from_.r 0)) ⟨m.from_.r, 0⟩ none
  else b1

/-- what lands on the destination square: the promotion piece in the mover's
color if `promotion` is set, else the moving piece -/
def placedPiece (m : Move) (piece : Piece) : Option Piece :=
  match m.promotion with
  | some t => some ⟨t, piece.c⟩
  | none => some piece

/-- the final board: castling relocation, placement on `to`, clearing of
`from` (in source order, so `from = to` ends cleared) -/
def boardAfter (m : Move) (piece : Piece) (b1 : Board) : Board :=
  bset (bset (castledBoard m b1) m.to_ (placedPiece m piece)) m.from_ none

/-- everything `applyMoveInternal` does after the `captured` determination:
castling rook relocation, placement with promotion, origin clearing,
rights / en-passant / clocks / turn / lastMove updates. `b1` is the board
after en-passant removal. -/
def applyCore (s : State) (m : Move) (piece : Piece) (b1 : Board)
    (captured : Option Piece) : State :=
  { board := boardAfter m piece b1
    turn := s.turn.opp
    whiteCanCastleK := wKAfter s piece captured m
    whiteCanCastleQ := wQAfter s piece captured m
    blackCanCastleK := bKAfter s piece captured m
    blackCanCastleQ := bQAfter s piece captured m
    enPassantTarget := epAfter piece m
    halfmoveClock := halfAfter s piece captured
    fullmoveNumber := if s.turn = Color.b then s.fullmoveNumber + 1
                      else s.fullmoveNumber
    lastMove := some m
    moveHistory := s.moveHistory
    positionCounts := s.positionCounts
    threefoldAvailable := s.threefoldAvailable
    zobrist := s.zobrist }

/-- `applyMoveInternal(state, move)`: `none` models the JS call throwing —
either the en-passant captured row leaves the board, or the `from` square is
empty (the code then dereferences `null`). -/
def applyMoveInternal (s : State) (m : Move) : Option State :=
  match s.board m.from_.r m.from_.f with
  | none => none
  | some piece =>
    if m.isEnPassant then
      match epSquare? s m with
      | none => none
      | some esq =>
        some (applyCore s m piece (bset s.board esq none) (s.board esq.r esq.f))
    else
      some (applyCore s m piece s.board (s.board m.to_.r m.to_.f))

/-- the castling filter of `getLegalMoves`: keep a castling candidate only when
the king is not in check and the two squares it crosses are unattacked -/
def castleOk (s : State) (piece : Piece) (fromSq : Square) (m : Move) : Bool :=
  if m.isCastling = false then true
  else if isInCheck s piece.c then false
  else
    let stepFile : Int := if fromSq.f < m.to_.f then 1 else -1
    if isSquareAttackedI s (fromSq.r : Int) ((fromSq.f : Int) + stepFile)
        piece.c.opp then false
    else if isSquareAttackedI s (fromSq.r : Int) ((fromSq.f : Int) + stepFile * 2)
        piece.c.opp then false
    else true

/-- the self-check simulation filter: apply each candidate and drop it when the
mover's own king is in check afterwards; a throwing simulation aborts the whole
call (`none`) -/
def filterCheck (s : State) (c : Color) : List Move → Option (List Move)
  | [] => some []
  | m :: ms =>
    match applyMoveInternal s m with
    | none => none
    | some ns =>
      match filterCheck s c ms with
      | none => none
      | some rest => some (if isInCheck ns c then rest else m :: rest)

/-- `getLegalMoves(state, from)` -/
def getLegalMoves (s : State) (fromSq : Square) : Option (List Move) :=
  match s.board fromSq.r fromSq.f with
  | none => some []
  | some piece =>
    filterCheck s piece.c
      ((getPseudoLegalMoves s fromSq).filter (castleOk s piece fromSq))

/-- accumulate `getLegalMoves` over a square list (row-major scan) -/
def legalAcc (s : State) (c : Color) : List Square → Option (List Move)
  | [] => some []
  | sq :: rest =>
    match s.board sq.r sq.f with
    | some piece =>
      if piece.c = c then
        match getLegalMoves s sq with
        | none => none
        | some ms => (legalAcc s c rest).map (fun more => ms ++ more)
      else legalAcc s c rest
    | none => legalAcc s c rest

/-- `getAllLegalMoves(state, color)` -/
def getAllLegalMoves (s : State) (c : Color) : Option (List Move) :=
  legalAcc s c allSquares

/-- `isCheckmate(state, color)`: in check and no legal move -/
def isCheckmate (s : State) (c : Color) : Option Bool :=
  if isInCheck s c then (getAllLegalMoves s c).map List.isEmpty
  else some false

/-- `isStalemate(state, color)`: not in check and no legal move -/
def isStalemate (s : State) (c : Color) : Option Bool :=
  if isInCheck s c then some false
  else (getAllLegalMoves s c).map List.isEmpty

/-- the `{ status, winner }` record returned by `getGameStatus` -/
structure GameStatus where
  status : String
  winner : Option Color
deriving DecidableEq

/-- `getGameStatus(state)`: checkmate, stalemate, 50-move clock, check,
ongoing — in that order -/
def getGameStatus (s : State) : Option GameStatus :=
  match isCheckmate s s.turn with
  | none => none
  | some true => some ⟨"checkmate", some s.turn.opp⟩
  | some false =>
    match isStalemate s s.turn with
    | none => none
    | some true => some ⟨"stalemate", none⟩
    | some false =>
      if 100 ≤ s.halfmoveClock then some ⟨"draw_50_moves", none⟩
      else if isInCheck s s.turn then some ⟨"check", none⟩
      else some ⟨"ongoing", none⟩

end Proto

namespace Fixtures

open Chess

/-- an all-zero constants table (enough for hash-independent test states) -/
def zob0 : Proto.Zobrist :=
  { table := fun _ _ _ _ => 0
    side := 0
    castlingK := 0
    castlingQ := 0
    castlingKb := 0
    castlingQb := 0
    epFile := fun _ => 0 }

/-- a quiescent prototype state over a given board and side to move -/
def mkState (b : Board) (t : Color) : Proto.State :=
  { board := b
    turn := t
    whiteCanCastleK := false
    whiteCanCastleQ := false
    blackCanCastleK := false
    blackCanCastleQ := false
    enPassantTarget := none
    halfmoveClock := 0
    fullmoveNumber := 1
    lastMove := none
    moveHistory := []
    positionCounts := []
    threefoldAvailable := false
    zobrist := zob0 }

/-- just the two kings, on their starting squares -/
def bKings : Board := fun r f =>
  if r = (7 : Fin 8) ∧ f = (4 : Fin 8) then some ⟨PieceType.k, Color.w⟩
  else if r = (0 : Fin 8) ∧ f = (4 : Fin 8) then some ⟨PieceType.k, Color.b⟩
  else none

/-- kings plus the white e-pawn on its home square -/
def bPawnStep : Board := fun r f =>
  if r = (7 : Fin 8) ∧ f = (4 : Fin 8) then some ⟨PieceType.k, Color.w⟩
  else if r = (0 : Fin 8) ∧ f = (4 : Fin 8) then some ⟨PieceType.k, Color.b⟩
  else if r = (6 : Fin 8) ∧ f = (4 : Fin 8) then some ⟨PieceType.p, Color.w⟩
  else none

/-- a lone black knight (moved while it is white's turn in C10's witness) -/
def bKnight : Board := fun r f =>
  if r = (3 : Fin 8) ∧ f = (3 : Fin 8) then some ⟨PieceType.n, Color.b⟩
  else none

/-- a white rook able to capture a black knight -/
def bRookCapture : Board := fun r f =>
  if r = (4 : Fin 8) ∧ f = (4 : Fin 8) then some ⟨PieceType.r, Color.w⟩
  else if r = (2 : Fin 8) ∧ f = (4 : Fin 8) then some ⟨PieceType.n, Color.b⟩
  else none

/-- white king and king-side rook on their home squares -/
def bCastle : Board := fun r f =>
  if r = (7 : Fin 8) ∧ f = (4 : Fin 8) then some ⟨PieceType.k, Color.w⟩
  else if r = (7 : Fin 8) ∧ f = (7 : Fin 8) then some ⟨PieceType.r, Color.w⟩
  else none

/-- a white pawn one step from promotion, far rank empty -/
def bPromo : Board := fun r f =>
  if r = (1 : Fin 8) ∧ f = (3 : Fin 8) then some ⟨PieceType.p, Color.w⟩
  else none

/-- a white pawn one step from promotion, blocked ahead, with a (contrived)
en-passant target sitting on the far rank diagonal -/
def bEpFar : Board := fun r f =>
  if r = (1 : Fin 8) ∧ f = (0 : Fin 8) then some ⟨PieceType.p, Color.w⟩
  else if r = (0 : Fin 8) ∧ f = (0 : Fin 8) then some ⟨PieceType.r, Color.b⟩
  else none

/-- C1 witness state: white to move, pawn on e2 -/
def sPawn : Proto.State := mkState bPawnStep Color.w

/-- C3 state: two kings, fifty-move clock expired, white has legal moves -/
def sFifty : Proto.State := { mkState bKings Color.w with halfmoveClock := 100 }

/-- C4 witness state -/
def sPromo : Proto.State := mkState bPromo Color.w

/-- C4 counterexample state -/
def sEpFar : Proto.State :=
  { mkState bEpFar Color.w with enPassantTarget := some ⟨0, 1⟩ }

/-- C5 witness state and double-step move -/
def sDouble : Proto.State := mkState bPawnStep Color.w

def mDouble : Move := ⟨⟨6, 4⟩, ⟨4, 4⟩, none, false, false⟩

/-- C6 witness state and capture move -/
def sCapture : Proto.State := { mkState bRookCapture Color.w with halfmoveClock := 5 }

def mCapture : Move := ⟨⟨4, 4⟩, ⟨2, 4⟩, none, false, false⟩

/-- C7 witness state and king-side castling move -/
def sCastle : Proto.State :=
  { mkState bCastle Color.w with whiteCanCastleK := true, whiteCanCastleQ := true }

def mCastle : Move := ⟨⟨7, 4⟩, ⟨7, 6⟩, none, false, true⟩

/-- C8 witness move: the white king steps aside, both rights must clear -/
def mKingStep : Move := ⟨⟨7, 4⟩, ⟨7, 5⟩, none, false, false⟩

/-- C9 witness states: identical game-relevant content (same placement, turn,
rights, en-passant file), different clocks / history / counts / last move and
even a different en-passant rank -/
def sHashA : Proto.State :=
  { mkState bKings Color.w with enPassantTarget := some ⟨2, 3⟩ }

def sHashB : Proto.State :=
  { mkState bKings Color.w with
      enPassantTarget := some ⟨5, 3⟩
      halfmoveClock := 57
      fullmoveNumber := 30
      lastMove := some ⟨⟨6, 4⟩, ⟨4, 4⟩, none, false, false⟩
      moveHistory := ["e4"]
      positionCounts := [(1, 2)]
      threefoldAvailable := true }

/-- C10 witness state and wrong-color move -/
def sKnight : Proto.State := mkState bKnight Color.w

def mKnight : Move := ⟨⟨3, 3⟩, ⟨5, 4⟩, none, false, false⟩

/-- C2 witness state: a single black knight on (1,1) -/
def sEng : Engine.State :=
  { board := fun r f =>
      if r = (1 : Fin 8) ∧ f = (1 : Fin 8) then some ⟨PieceType.n, Color.b⟩
      else none
    turn := Color.w
    whiteCanCastleK := false
    whiteCanCastleQ := false
    blackCanCastleK := false
    blackCanCastleQ := false
    enPassantTarget := none
    halfmoveClock := 0
    fullmoveNumber := 1 }

/-- a move from the empty square (0,0) -/
def mEmptyFrom : Move := ⟨⟨0, 0⟩, ⟨2, 2⟩, none, false, false⟩

/-- a knight move from the occupied square (1,1) -/
def mKnightFrom : Move := ⟨⟨1, 1⟩, ⟨3, 2⟩, none, false, false⟩

end Fixtures

/-! ## Helper lemmas -/

namespace Chess

theorem bset_self (b : Board) (sq : Square) (v : Option Piece) :
    bset b sq v sq.r sq.f = v := by
  simp [bset]

theorem bset_ne (b : Board) (sq : Square) (v : Option Piece) (r f : Fin 8)
    (h : ¬(r = sq.r ∧ f = sq.f)) : bset b sq v r f = b r f := by
  simp [bset, h]

theorem toSquare?_eq_some {r f : Int} {sq : Square} :
    toSquare? r f = some sq ↔ (sq.r : Int) = r ∧ (sq.f : Int) = f := by
  obtain ⟨⟨a, ha⟩, ⟨b, hb⟩⟩ := sq
  simp only [toSquare?]
  split <;> rename_i h
  · simp only [Option.some.injEq, Square.mk.injEq, Fin.mk.injEq, Fin.val_mk]
    omega
  · simp only [reduceCtorEq, false_iff, not_and, Fin.val_mk]
    omega

theorem toSquare?_of_fin (sq : Square) :
    toSquare? (sq.r : Int) (sq.f : Int) = some sq :=
  toSquare?_eq_some.mpr ⟨rfl, rfl⟩

end Chess

namespace Proto

open Chess

/-- a successful `applyMoveInternal` is an `applyCore` on the piece found at
the origin, the board after en-passant removal, and the captured piece -/
theorem applyMoveInternal_some {s : State} {m : Move} {ns : State}
    (h : applyMoveInternal s m = some ns) :
    ∃ piece b1, s.board m.from_.r m.from_.f = some piece
      ∧ ns = applyCore s m piece b1 (capturedPiece s m)
      ∧ ((m.isEnPassant = false ∧ b1 = s.board)
         ∨ ∃ esq, m.isEnPassant = true ∧ epSquare? s m = some esq
             ∧ b1 = bset s.board esq none) := by
  unfold applyMoveInternal at h
  split at h
  · cases h
  · rename_i piece hb
    by_cases hep : m.isEnPassant = true
    · rw [if_pos hep] at h
      split at h
      · cases h
      · rename_i esq hesq
        refine ⟨piece, bset s.board esq none, hb, ?_, Or.inr ⟨esq, hep, hesq, rfl⟩⟩
        have hcap : capturedPiece s m = s.board esq.r esq.f := by
          unfold capturedPiece
          rw [if_pos hep, hesq]
        rw [hcap]
        exact (Option.some.inj h).symm
    · rw [if_neg hep] at h
      refine ⟨piece, s.board, hb, ?_,
        Or.inl ⟨Bool.eq_false_iff.mpr hep, rfl⟩⟩
      have hcap : capturedPiece s m = s.board m.to_.r m.to_.f := by
        unfold capturedPiece
        rw [if_neg hep]
      rw [hcap]
      exact (Option.some.inj h).symm

/-- C10: whenever `applyMoveInternal` returns a state, its `turn` is the
opposite of the input's `turn` — unconditionally, whatever piece of whatever
color was moved; the engine performs no check that the mover belongs to the
side to move. -/
theorem turn_always_flips (s : State) (m : Move) (ns : State)
    (h : applyMoveInternal s m = some ns) : ns.turn = s.turn.opp := by
  obtain ⟨piece, b1, hb, rfl, hrest⟩ := applyMoveInternal_some h
  rfl

/-- C10 witness: a black knight is moved while `turn = w`; the application
succeeds anyway and the turn flips to black. -/
theorem turn_always_flips_witness :
    ((applyMoveInternal Fixtures.sKnight Fixtures.mKnight).get (by decide)).turn
      = Fixtures.sKnight.turn.opp :=
  turn_always_flips Fixtures.sKnight Fixtures.mKnight _ (Option.some_get _).symm

/-- C5: after a successful `applyMoveInternal`, `enPassantTarget` is non-null
iff the moved piece is a pawn whose move spans exactly two ranks; the target
then sits on the pawn's origin file at the rank midway between origin and
destination. -/
theorem enPassantTarget_spec (s : State) (m : Move) (ns : State) (piece : Piece)
    (hp : s.board m.from_.r m.from_.f = some piece)
    (h : applyMoveInternal s m = some ns) :
    (ns.enPassantTarget ≠ none ↔
      piece.t = PieceType.p ∧ ((m.to_.r : Int) - (m.from_.r : Int)).natAbs = 2)
    ∧ (∀ tgt, ns.enPassantTarget = some tgt →
        tgt.f = m.from_.f ∧ 2 * (tgt.r : Nat) = (m.to_.r : Nat) + (m.from_.r : Nat)) := by
  obtain ⟨piece2, b1, hb, rfl, hrest⟩ := applyMoveInternal_some h
  rw [hp] at hb
  injection hb with hb
  subst hb
  have hfield : (applyCore s m piece b1 (capturedPiece s m)).enPassantTarget
      = epAfter piece m := rfl
  rw [hfield]
  unfold epAfter
  split
  · rename_i hcond
    constructor
    · simp only [ne_eq, reduceCtorEq, not_false_eq_true, true_iff]
      exact hcond
    · intro tgt htgt
      injection htgt with htgt
      subst htgt
      refine ⟨rfl, ?_⟩
      have h2 := hcond.2
      have hlt1 := m.to_.r.isLt
      have hlt2 := m.from_.r.isLt
      simp only [midRank]
      omega
  · rename_i hcond
    constructor
    · simp only [ne_eq, not_true_eq_false, false_iff]
      exact hcond
    · intro tgt htgt
      cases htgt

/-- C5 witness: the double step e2–e4 sets the target to e3 = (5,4). -/
theorem enPassantTarget_spec_witness :
    (((applyMoveInternal Fixtures.sDouble Fixtures.mDouble).get (by decide)).enPassantTarget
        ≠ none ↔
      (Piece.mk PieceType.p Color.w).t = PieceType.p
        ∧ ((Fixtures.mDouble.to_.r : Int) - (Fixtures.mDouble.from_.r : Int)).natAbs = 2)
    ∧ (∀ tgt,
        ((applyMoveInternal Fixtures.sDouble Fixtures.mDouble).get (by decide)).enPassantTarget
          = some tgt →
        tgt.f = Fixtures.mDouble.from_.f
          ∧ 2 * (tgt.r : Nat) = (Fixtures.mDouble.to_.r : Nat) + (Fixtures.mDouble.from_.r : Nat)) :=
  enPassantTarget_spec Fixtures.sDouble Fixtures.mDouble _ ⟨PieceType.p, Color.w⟩
    (by decide) (Option.some_get _).symm

/-- C6: after a successful `applyMoveInternal`, the halfmove clock is 0 exactly
when the mover is a pawn or the move captured a piece (the captured piece being
the one behind the destination for en passant, else the destination occupant),
and is the old clock plus one otherwise. -/
theorem halfmoveClock_spec (s : State) (m : Move) (ns : State) (piece : Piece)
    (hp : s.board m.from_.r m.from_.f = some piece)
    (h : applyMoveInternal s m = some ns) :
    (ns.halfmoveClock = 0 ↔
      (piece.t = PieceType.p ∨ capturedPiece s m ≠ none))
    ∧ (¬(piece.t = PieceType.p ∨ capturedPiece s m ≠ none) →
        ns.halfmoveClock = s.halfmoveClock + 1) := by
  obtain ⟨piece2, b1, hb, rfl, hrest⟩ := applyMoveInternal_some h
  rw [hp] at hb
  injection hb with hb
  subst hb
  have hfield : (applyCore s m piece b1 (capturedPiece s m)).halfmoveClock
      = halfAfter s piece (capturedPiece s m) := rfl
  rw [hfield]
  unfold halfAfter
  split
  · rename_i hcond
    constructor
    · constructor
      · intro _
        rcases hcond with hcp | hcs
        · exact Or.inl hcp
        · exact Or.inr (by
            intro hnone
            rw [hnone] at hcs
            cases hcs)
      · intro _; rfl
    · intro hneg
      exfalso
      apply hneg
      rcases hcond with hcp | hcs
      · exact Or.inl hcp
      · refine Or.inr ?_
        intro hnone
        rw [hnone] at hcs
        cases hcs
  · rename_i hcond
    constructor
    · constructor
      · intro h0; cases h0
      · intro hor
        exfalso
        apply hcond
        rcases hor with hcp | hcs
        · exact Or.inl hcp
        · exact Or.inr (Option.isSome_iff_ne_none.mpr hcs)
    · intro _; rfl

/-- C6 witness: a rook capture resets the clock (here from 5 to 0). -/
theorem halfmoveClock_spec_witness :
    ((applyMoveInternal Fixtures.sCapture Fixtures.mCapture).get (by decide)).halfmoveClock = 0 :=
  (halfmoveClock_spec Fixtures.sCapture Fixtures.mCapture _ ⟨PieceType.r, Color.w⟩
    (by decide) (Option.some_get _).symm).1.mpr (Or.inr (by decide))

/-- C9: `computeHash` depends only on piece placement, side to move, the four
castling-rights flags and the en-passant file (given the same constants
table); halfmove clock, fullmove number, move history, position counts, last
move and even the en-passant rank are irrelevant. -/
theorem computeHash_features (s1 s2 : State)
    (hz : s1.zobrist = s2.zobrist)
    (hb : ∀ r f, s1.board r f = s2.board r f)
    (ht : s1.turn = s2.turn)
    (hwk : s1.whiteCanCastleK = s2.whiteCanCastleK)
    (hwq : s1.whiteCanCastleQ = s2.whiteCanCastleQ)
    (hbk : s1.blackCanCastleK = s2.blackCanCastleK)
    (hbq : s1.blackCanCastleQ = s2.blackCanCastleQ)
    (hep : s1.enPassantTarget.map (fun t => t.f) = s2.enPassantTarget.map (fun t => t.f)) :
    computeHash s1 = computeHash s2 := by
  have hb2 : s1.board = s2.board := funext fun r => funext fun f => hb r f
  unfold computeHash
  rw [hb2, hz, ht, hwk, hwq, hbk, hbq]
  cases he1 : s1.enPassantTarget with
  | none =>
    cases he2 : s2.enPassantTarget with
    | none => rfl
    | some t2 => rw [he1, he2] at hep; cases hep
  | some t1 =>
    cases he2 : s2.enPassantTarget with
    | none => rw [he1, he2] at hep; cases hep
    | some t2 =>
      rw [he1, he2] at hep
      have hf : t1.f = t2.f := by
        have e1 : (some t1).map (fun t : Square => t.f) = some t1.f := rfl
        have e2 : (some t2).map (fun t : Square => t.f) = some t2.f := rfl
        rw [e1, e2] at hep
        exact Option.some.inj hep
      simp only [hf]

/-- C9 witness: two states with the same placement, turn, rights and
en-passant file (but different clocks, counters, history, counts, last move
and en-passant rank) hash identically. -/
theorem computeHash_features_witness :
    computeHash Fixtures.sHashA = computeHash Fixtures.sHashB :=
  computeHash_features Fixtures.sHashA Fixtures.sHashB rfl (fun _ _ => rfl)
    rfl rfl rfl rfl rfl rfl

end Proto

namespace Engine

open Chess

/-- C2: `applyMove` of `src/engine/engine.js` fails with the explicit error
`"No piece at from"` exactly when the `from` square is empty; no state is
produced in that case, and when the square is occupied the call never fails
for that reason. -/
theorem applyMove_empty_from_error (s : State) (m : Move) :
    (s.board m.from_.r m.from_.f = none →
      applyMove s m = Except.error "No piece at from")
    ∧ (s.board m.from_.r m.from_.f ≠ none →
      applyMove s m ≠ Except.error "No piece at from") := by
  constructor
  · intro h
    unfold applyMove
    rw [h]
  · intro h
    cases hb : s.board m.from_.r m.from_.f with
    | none => exact absurd hb h
    | some fromPiece =>
      simp only [applyMove, hb]
      split
      · rename_i e he
        split at he
        · split at he
          · cases he
          · injection he with he1
            intro hc
            injection hc with hc1
            rw [← he1] at hc1
            exact absurd hc1 (by decide)
        · cases he
      · intro hc
        cases hc

/-- C2 witness: a move from the empty square (0,0) raises exactly the
contract-violation error, a move from the occupied square (1,1) does not. -/
theorem applyMove_empty_from_error_witness :
    applyMove Fixtures.sEng Fixtures.mEmptyFrom = Except.error "No piece at from"
    ∧ applyMove Fixtures.sEng Fixtures.mKnightFrom ≠ Except.error "No piece at from" :=
  ⟨(applyMove_empty_from_error Fixtures.sEng Fixtures.mEmptyFrom).1 (by decide),
   (applyMove_empty_from_error Fixtures.sEng Fixtures.mKnightFrom).2 (by decide)⟩

end Engine

namespace Proto

open Chess

/-- every move surviving the self-check filter simulates to a state where the
given color's king is not in check -/
theorem filterCheck_mem {s : State} {c : Color} {l res : List Move} {m : Move}
    (h : filterCheck s c l = some res) (hm : m ∈ res) :
    ∃ ns, applyMoveInternal s m = some ns ∧ isInCheck ns c = false := by
  induction l generalizing res with
  | nil =>
    unfold filterCheck at h
    injection h with h
    subst h
    cases hm
  | cons a as ih =>
    unfold filterCheck at h
    split at h
    · cases h
    · rename_i ns ha
      split at h
      · cases h
      · rename_i rest hr
        injection h with h
        subst h
        by_cases hc : isInCheck ns c = true
        · rw [if_pos hc] at hm
          exact ih hr hm
        · rw [if_neg hc] at hm
          cases hm with
          | head => exact ⟨ns, ha, Bool.eq_false_iff.mpr hc⟩
          | tail _ hm2 => exact ih hr hm2

/-- C1: every move returned by `getLegalMoves` leaves the mover's own king
safe — applying it yields a state in which `isInCheck` for the color of the
piece on the queried square is `false`. -/
theorem getLegalMoves_no_self_check (s : State) (sq : Square) (piece : Piece)
    (ms : List Move) (m : Move)
    (hp : s.board sq.r sq.f = some piece)
    (h : getLegalMoves s sq = some ms) (hm : m ∈ ms) :
    ∃ ns, applyMoveInternal s m = some ns ∧ isInCheck ns piece.c = false := by
  unfold getLegalMoves at h
  rw [hp] at h
  exact filterCheck_mem h hm

/-- C1 witness: from a position with the white e-pawn, both generated legal
moves simulate to a state where white is not in check; checked on the first. -/
theorem getLegalMoves_no_self_check_witness :
    ∃ ns, applyMoveInternal Fixtures.sPawn ⟨⟨6, 4⟩, ⟨5, 4⟩, none, false, false⟩ = some ns
      ∧ isInCheck ns Color.w = false :=
  getLegalMoves_no_self_check Fixtures.sPawn ⟨6, 4⟩ ⟨PieceType.p, Color.w⟩
    [⟨⟨6, 4⟩, ⟨5, 4⟩, none, false, false⟩, ⟨⟨6, 4⟩, ⟨4, 4⟩, none, false, false⟩]
    ⟨⟨6, 4⟩, ⟨5, 4⟩, none, false, false⟩
    (by decide) (by decide) (by decide)

/-- C3 counterexample: in a state with expired fifty-move clock and legal
moves available, `getGameStatus` reports the status string `"draw_50_moves"`
with no winner — not the status `draw_fifty_moves` the specification names. -/
theorem gameStatus_fifty_label_cex :
    getGameStatus Fixtures.sFifty = some ⟨"draw_50_moves", none⟩
    ∧ getGameStatus Fixtures.sFifty ≠ some ⟨"draw_fifty_moves", none⟩
    ∧ 100 ≤ Fixtures.sFifty.halfmoveClock
    ∧ getAllLegalMoves Fixtures.sFifty Fixtures.sFifty.turn ≠ none
    ∧ getAllLegalMoves Fixtures.sFifty Fixtures.sFifty.turn ≠ some [] := by
  refine ⟨by decide, by decide, by decide, by decide, by decide⟩

/-- C3 (amended): with `halfmoveClock ≥ 100` and at least one legal move for
the side to move, `getGameStatus` returns the fifty-move draw — whose status
string in the code is `"draw_50_moves"` — with no winner, even when the side
to move is in check; checkmate and stalemate take precedence over the
clock-based draw. -/
theorem gameStatus_fifty_precedence :
    (∀ s : State, getAllLegalMoves s s.turn ≠ none →
      getAllLegalMoves s s.turn ≠ some [] → 100 ≤ s.halfmoveClock →
      getGameStatus s = some ⟨"draw_50_moves", none⟩)
    ∧ (∀ s : State, isCheckmate s s.turn = some true →
      getGameStatus s = some ⟨"checkmate", some s.turn.opp⟩)
    ∧ (∀ s : State, isCheckmate s s.turn = some false →
      isStalemate s s.turn = some true →
      getGameStatus s = some ⟨"stalemate", none⟩) := by
  refine ⟨?_, ?_, ?_⟩
  · intro s hnn hne h100
    cases hga : getAllLegalMoves s s.turn with
    | none => exact absurd hga hnn
    | some ms =>
      have hms : ms ≠ [] := by
        intro hnil
        subst hnil
        exact hne hga
      have hempty : ms.isEmpty = false := by
        cases ms with
        | nil => exact absurd rfl hms
        | cons a as => rfl
      have hcm : isCheckmate s s.turn = some false := by
        unfold isCheckmate
        split
        · rw [hga]
          simp only [Option.map, hempty]
        · rfl
      have hsm : isStalemate s s.turn = some false := by
        unfold isStalemate
        split
        · rfl
        · rw [hga]
          simp only [Option.map, hempty]
      unfold getGameStatus
      rw [hcm, hsm, if_pos h100]
  · intro s hcm
    unfold getGameStatus
    rw [hcm]
  · intro s hcm hsm
    unfold getGameStatus
    rw [hcm, hsm]

/-- C3 witness: the two-kings position with the clock expired is reported as
the fifty-move draw. -/
theorem gameStatus_fifty_precedence_witness :
    getGameStatus Fixtures.sFifty = some ⟨"draw_50_moves", none⟩ :=
  gameStatus_fifty_precedence.1 Fixtures.sFifty (by decide) (by decide) (by decide)

/-- C7: applying a successful castling move of a king standing on `(r0, 4)`
moves the corner rook to the square adjacent to the king's destination on the
origin side (file 5 king-side, file 3 queen-side, on the mover's back rank),
empties the corner, and clears both of the mover's castling rights. -/
theorem castling_apply_spec (s : State) (m : Move) (ns : State) (c : Color)
    (r0 : Fin 8)
    (hp : s.board m.from_.r m.from_.f = some ⟨PieceType.k, c⟩)
    (hcast : m.isCastling = true)
    (hfrom : m.from_ = ⟨r0, 4⟩)
    (h : applyMoveInternal s m = some ns) :
    (m.to_ = ⟨r0, 6⟩ → s.board r0 7 = some ⟨PieceType.r, c⟩ →
      ns.board r0 5 = some ⟨PieceType.r, c⟩ ∧ ns.board r0 7 = none)
    ∧ (m.to_ = ⟨r0, 2⟩ → s.board r0 0 = some ⟨PieceType.r, c⟩ →
      ns.board r0 3 = some ⟨PieceType.r, c⟩ ∧ ns.board r0 0 = none)
    ∧ (c = Color.w → ns.whiteCanCastleK = false ∧ ns.whiteCanCastleQ = false)
    ∧ (c = Color.b → ns.blackCanCastleK = false ∧ ns.blackCanCastleQ = false) := by
  obtain ⟨mf, mt, mpromo, mep, mcast⟩ := m
  obtain ⟨piece2, b1, hb, hns, hrest⟩ := applyMoveInternal_some h
  rw [hp] at hb
  injection hb with hb
  subst hb
  subst hns
  have hmf : mf = ⟨r0, 4⟩ := hfrom
  subst hmf
  have hmc : mcast = true := hcast
  subst hmc
  have hb1 : ∀ rr ff : Fin 8, ff ≠ mt.f → b1 rr ff = s.board rr ff := by
    rcases hrest with ⟨hepf, rfl⟩ | ⟨esq, hepv, hesq, rfl⟩
    · intro rr ff _
      rfl
    · intro rr ff hff
      apply bset_ne
      intro hx
      apply hff
      have hfeq : (esq.f : Int) = (mt.f : Int) := (toSquare?_eq_some.mp hesq).2
      have hfeq2 : esq.f = mt.f := by
        apply Fin.ext
        omega
      exact hx.2.trans hfeq2
  refine ⟨?_, ?_, ?_, ?_⟩
  · intro hto hrook
    have hmt : mt = ⟨r0, 6⟩ := hto
    subst hmt
    constructor
    · show boardAfter _ _ b1 r0 5 = some ⟨PieceType.r, c⟩
      simp [boardAfter, castledBoard, bset]
      rw [hb1 r0 7 (show (7 : Fin 8) ≠ (6 : Fin 8) by decide)]
      exact hrook
    · show boardAfter _ _ b1 r0 7 = none
      simp [boardAfter, castledBoard, bset]
  · intro hto hrook
    have hmt : mt = ⟨r0, 2⟩ := hto
    subst hmt
    constructor
    · show boardAfter _ _ b1 r0 3 = some ⟨PieceType.r, c⟩
      simp [boardAfter, castledBoard, bset]
      rw [hb1 r0 0 (show (0 : Fin 8) ≠ (2 : Fin 8) by decide)]
      exact hrook
    · show boardAfter _ _ b1 r0 0 = none
      simp [boardAfter, castledBoard, bset]
  · intro hc
    subst hc
    constructor
    · simp [applyCore, wKAfter]
    · simp [applyCore, wQAfter]
  · intro hc
    subst hc
    constructor
    · simp [applyCore, bKAfter]
    · simp [applyCore, bQAfter]

/-- C7 witness: white castles king-side from the two-piece position; the rook
lands on (7,5), the corner empties, both white rights clear. -/
theorem castling_apply_spec_witness :
    ((applyMoveInternal Fixtures.sCastle Fixtures.mCastle).get (by decide)).board 7 5
        = some ⟨PieceType.r, Color.w⟩
    ∧ ((applyMoveInternal Fixtures.sCastle Fixtures.mCastle).get (by decide)).board 7 7
        = none
    ∧ ((applyMoveInternal Fixtures.sCastle Fixtures.mCastle).get (by decide)).whiteCanCastleK
        = false
    ∧ ((applyMoveInternal Fixtures.sCastle Fixtures.mCastle).get (by decide)).whiteCanCastleQ
        = false := by
  have h := castling_apply_spec Fixtures.sCastle Fixtures.mCastle
    ((applyMoveInternal Fixtures.sCastle Fixtures.mCastle).get (by decide)) Color.w 7
    (by decide) (by decide) (by decide) (Option.some_get _).symm
  exact ⟨(h.1 rfl (by decide)).1, (h.1 rfl (by decide)).2,
    (h.2.2.1 rfl).1, (h.2.2.1 rfl).2⟩

/-- a true `whiteCanCastleK` after the move was already true before -/
theorem wKAfter_true (s : State) (piece : Piece) (cap : Option Piece) (m : Move)
    (h : wKAfter s piece cap m = true) : s.whiteCanCastleK = true := by
  unfold wKAfter at h
  split at h
  · cases h
  · split at h
    · cases h
    · split at h
      · cases h
      · exact h

/-- a true `whiteCanCastleQ` after the move was already true before -/
theorem wQAfter_true (s : State) (piece : Piece) (cap : Option Piece) (m : Move)
    (h : wQAfter s piece cap m = true) : s.whiteCanCastleQ = true := by
  unfold wQAfter at h
  split at h
  · cases h
  · split at h
    · cases h
    · split at h
      · cases h
      · exact h

/-- a true `blackCanCastleK` after the move was already true before -/
theorem bKAfter_true (s : State) (piece : Piece) (cap : Option Piece) (m : Move)
    (h : bKAfter s piece cap m = true) : s.blackCanCastleK = true := by
  unfold bKAfter at h
  split at h
  · cases h
  · split at h
    · cases h
    · split at h
      · cases h
      · exact h

/-- a true `blackCanCastleQ` after the move was already true before -/
theorem bQAfter_true (s : State) (piece : Piece) (cap : Option Piece) (m : Move)
    (h : bQAfter s piece cap m = true) : s.blackCanCastleQ = true := by
  unfold bQAfter at h
  split at h
  · cases h
  · split at h
    · cases h
    · split at h
      · cases h
      · exact h

/-- C8: castling rights never transition false→true; both of a color's flags
clear when that color's king moves; the flag matching an original corner
clears when the rook of that corner's color standing there moves away or is
captured there. -/
theorem castlingRights_spec (s : State) (m : Move) (ns : State) (piece : Piece)
    (hp : s.board m.from_.r m.from_.f = some piece)
    (h : applyMoveInternal s m = some ns) :
    ((ns.whiteCanCastleK = true → s.whiteCanCastleK = true)
     ∧ (ns.whiteCanCastleQ = true → s.whiteCanCastleQ = true)
     ∧ (ns.blackCanCastleK = true → s.blackCanCastleK = true)
     ∧ (ns.blackCanCastleQ = true → s.blackCanCastleQ = true))
    ∧ (piece.t = PieceType.k →
        (piece.c = Color.w → ns.whiteCanCastleK = false ∧ ns.whiteCanCastleQ = false)
        ∧ (piece.c = Color.b → ns.blackCanCastleK = false ∧ ns.blackCanCastleQ = false))
    ∧ (s.board 7 7 = some ⟨PieceType.r, Color.w⟩ →
        (m.from_ = ⟨7, 7⟩ ∨ (m.isEnPassant = false ∧ m.to_ = ⟨7, 7⟩)) →
        ns.whiteCanCastleK = false)
    ∧ (s.board 7 0 = some ⟨PieceType.r, Color.w⟩ →
        (m.from_ = ⟨7, 0⟩ ∨ (m.isEnPassant = false ∧ m.to_ = ⟨7, 0⟩)) →
        ns.whiteCanCastleQ = false)
    ∧ (s.board 0 7 = some ⟨PieceType.r, Color.b⟩ →
        (m.from_ = ⟨0, 7⟩ ∨ (m.isEnPassant = false ∧ m.to_ = ⟨0, 7⟩)) →
        ns.blackCanCastleK = false)
    ∧ (s.board 0 0 = some ⟨PieceType.r, Color.b⟩ →
        (m.from_ = ⟨0, 0⟩ ∨ (m.isEnPassant = false ∧ m.to_ = ⟨0, 0⟩)) →
        ns.blackCanCastleQ = false) := by
  obtain ⟨piece2, b1, hb, hns, hrest⟩ := applyMoveInternal_some h
  rw [hp] at hb
  injection hb with hb
  subst hb
  subst hns
  refine ⟨⟨fun hx => wKAfter_true s piece (capturedPiece s m) m hx,
          fun hx => wQAfter_true s piece (capturedPiece s m) m hx,
          fun hx => bKAfter_true s piece (capturedPiece s m) m hx,
          fun hx => bQAfter_true s piece (capturedPiece s m) m hx⟩, ?_, ?_, ?_, ?_, ?_⟩
  · intro hk
    constructor
    · intro hc
      constructor
      · simp [applyCore, wKAfter, hk, hc]
      · simp [applyCore, wQAfter, hk, hc]
    · intro hc
      constructor
      · simp [applyCore, bKAfter, hk, hc]
      · simp [applyCore, bQAfter, hk, hc]
  · intro hcorner hcase
    rcases hcase with hfm | ⟨hnep, htm⟩
    · have hpe : some piece = (some ⟨PieceType.r, Color.w⟩ : Option Piece) := by
        rw [← hp, hfm]
        exact hcorner
      injection hpe with hpe
      subst hpe
      simp [applyCore, wKAfter, hfm]
    · have hcap : capturedPiece s m = some ⟨PieceType.r, Color.w⟩ := by
        unfold capturedPiece
        rw [if_neg (by rw [hnep]; exact Bool.false_ne_true), htm]
        exact hcorner
      have hrc : rookCapturedOn (capturedPiece s m) m Color.w 7 7 = true := by
        rw [hcap]
        unfold rookCapturedOn
        exact decide_eq_true ⟨rfl, rfl, by rw [htm], by rw [htm]⟩
      simp [applyCore, wKAfter, hrc]
  · intro hcorner hcase
    rcases hcase with hfm | ⟨hnep, htm⟩
    · have hpe : some piece = (some ⟨PieceType.r, Color.w⟩ : Option Piece) := by
        rw [← hp, hfm]
        exact hcorner
      injection hpe with hpe
      subst hpe
      simp [applyCore, wQAfter, hfm]
    · have hcap : capturedPiece s m = some ⟨PieceType.r, Color.w⟩ := by
        unfold capturedPiece
        rw [if_neg (by rw [hnep]; exact Bool.false_ne_true), htm]
        exact hcorner
      have hrc : rookCapturedOn (capturedPiece s m) m Color.w 7 0 = true := by
        rw [hcap]
        unfold rookCapturedOn
        exact decide_eq_true ⟨rfl, rfl, by rw [htm], by rw [htm]⟩
      simp [applyCore, wQAfter, hrc]
  · intro hcorner hcase
    rcases hcase with hfm | ⟨hnep, htm⟩
    · have hpe : some piece = (some ⟨PieceType.r, Color.b⟩ : Option Piece) := by
        rw [← hp, hfm]
        exact hcorner
      injection hpe with hpe
      subst hpe
      simp [applyCore, bKAfter, hfm]
    · have hcap : capturedPiece s m = some ⟨PieceType.r, Color.b⟩ := by
        unfold capturedPiece
        rw [if_neg (by rw [hnep]; exact Bool.false_ne_true), htm]
        exact hcorner
      have hrc : rookCapturedOn (capturedPiece s m) m Color.b 0 7 = true := by
        rw [hcap]
        unfold rookCapturedOn
        exact decide_eq_true ⟨rfl, rfl, by rw [htm], by rw [htm]⟩
      simp [applyCore, bKAfter, hrc]
  · intro hcorner hcase
    rcases hcase with hfm | ⟨hnep, htm⟩
    · have hpe : some piece = (some ⟨PieceType.r, Color.b⟩ : Option Piece) := by
        rw [← hp, hfm]
        exact hcorner
      injection hpe with hpe
      subst hpe
      simp [applyCore, bQAfter, hfm]
    · have hcap : capturedPiece s m = some ⟨PieceType.r, Color.b⟩ := by
        unfold capturedPiece
        rw [if_neg (by rw [hnep]; exact Bool.false_ne_true), htm]
        exact hcorner
      have hrc : rookCapturedOn (capturedPiece s m) m Color.b 0 0 = true := by
        rw [hcap]
        unfold rookCapturedOn
        exact decide_eq_true ⟨rfl, rfl, by rw [htm], by rw [htm]⟩
      simp [applyCore, bQAfter, hrc]

/-- C8 witness: the white king steps aside; both white rights clear. -/
theorem castlingRights_spec_witness :
    ((applyMoveInternal Fixtures.sCastle Fixtures.mKingStep).get (by decide)).whiteCanCastleK
        = false
    ∧ ((applyMoveInternal Fixtures.sCastle Fixtures.mKingStep).get (by decide)).whiteCanCastleQ
        = false := by
  have h := castlingRights_spec Fixtures.sCastle Fixtures.mKingStep
    ((applyMoveInternal Fixtures.sCastle Fixtures.mKingStep).get (by decide))
    ⟨PieceType.k, Color.w⟩ (by decide) (Option.some_get _).symm
  exact (h.2.1 rfl).1 rfl

/-- every promotion move to `d` survives the to-`d`-non-ep filter -/
theorem promoMoves_filter_self (fromSq d : Square) :
    (promoMoves fromSq d).filter
        (fun m => decide (m.to_ = d ∧ m.isEnPassant = false))
      = promoMoves fromSq d := by
  simp [promoMoves, promoPieces, List.filter]

/-- promotion moves to a square other than `d` are all filtered away -/
theorem promoMoves_filter_ne (fromSq sq d : Square) (h : sq ≠ d) :
    (promoMoves fromSq sq).filter
        (fun m => decide (m.to_ = d ∧ m.isEnPassant = false)) = [] := by
  simp [promoMoves, promoPieces, List.filter, h]

/-- every element of an all-en-passant list is dropped by the non-ep filter -/
theorem filter_ep_nil (l : List Move) (d : Square)
    (h : ∀ m ∈ l, m.isEnPassant = true) :
    l.filter (fun m => decide (m.to_ = d ∧ m.isEnPassant = false)) = [] := by
  induction l with
  | nil => rfl
  | cons a as ih =>
    have ha := h a (List.mem_cons_self a as)
    rw [List.filter_cons_of_neg (by simp [ha])]
    exact ih fun m hm => h m (List.mem_cons_of_mem a hm)

/-- a member of `promoMoves` always carries a promotion tag -/
theorem mem_promoMoves {fromSq d : Square} {m : Move}
    (h : m ∈ promoMoves fromSq d) : m.promotion ≠ none := by
  obtain ⟨t, ht, rfl⟩ := List.mem_map.mp h
  simp

/-- a double step from the start row never lands on the promotion row -/
theorem promoRow_ne_double (c : Color) :
    ((startRow c : Fin 8) : Int) + 2 * pawnDir c ≠ promoRow c := by
  cases c <;> decide

/-- the forward part of the pawn branch contributes moves onto the far-rank
square `d` exactly when the one-step square is `d` and empty — and then
exactly the four promotion moves -/
theorem pawnForward_filter (s : State) (fromSq : Square) (c : Color) (d : Square)
    (hd : (d.r : Int) = promoRow c) :
    (pawnForward s fromSq c).filter
        (fun m => decide (m.to_ = d ∧ m.isEnPassant = false))
      = if toSquare? ((fromSq.r : Int) + pawnDir c) (fromSq.f : Int) = some d
            ∧ s.board d.r d.f = none
        then promoMoves fromSq d else [] := by
  unfold pawnForward
  split
  · rename_i h1
    have hneg : ¬(toSquare? ((fromSq.r : Int) + pawnDir c) (fromSq.f : Int) = some d
        ∧ s.board d.r d.f = none) := by
      rintro ⟨hx, -⟩
      rw [h1] at hx
      cases hx
    rw [if_neg hneg]
    rfl
  · rename_i sq1 h1
    split
    · rename_i hemp
      split
      · rename_i hpr
        by_cases hsq : sq1 = d
        · subst hsq
          rw [promoMoves_filter_self, if_pos ⟨h1, hemp⟩]
        · have hneg : ¬(toSquare? ((fromSq.r : Int) + pawnDir c) (fromSq.f : Int) = some d
              ∧ s.board d.r d.f = none) := by
            rintro ⟨hx, -⟩
            rw [h1] at hx
            exact hsq (Option.some.inj hx)
          rw [promoMoves_filter_ne fromSq sq1 d hsq, if_neg hneg]
      · rename_i hpr
        have hr1 : (sq1.r : Int) = (fromSq.r : Int) + pawnDir c :=
          (toSquare?_eq_some.mp h1).1
        have hsq : sq1 ≠ d := by
          intro he
          apply hpr
          rw [← hr1, he, hd]
        have hneg : ¬(toSquare? ((fromSq.r : Int) + pawnDir c) (fromSq.f : Int) = some d
            ∧ s.board d.r d.f = none) := by
          rintro ⟨hx, -⟩
          rw [h1] at hx
          exact hsq (Option.some.inj hx)
        rw [if_neg hneg, List.filter_cons_of_neg (by simp [mkMove, hsq])]
        split
        · rename_i hsr
          split
          · rename_i sq2 h2
            split
            · rename_i hemp2
              have hr2 : (sq2.r : Int) = (fromSq.r : Int) + 2 * pawnDir c :=
                (toSquare?_eq_some.mp h2).1
              have hsrv : (fromSq.r : Int) = ((startRow c : Fin 8) : Int) := by
                rw [hsr]
              have hsq2 : sq2 ≠ d := by
                intro he
                apply promoRow_ne_double c
                rw [← hsrv, ← hr2, he]
                exact hd
              rw [List.filter_cons_of_neg (by simp [mkMove, hsq2])]
              rfl
            · rfl
          · rfl
        · rfl
    · rename_i hemp
      have hneg : ¬(toSquare? ((fromSq.r : Int) + pawnDir c) (fromSq.f : Int) = some d
          ∧ s.board d.r d.f = none) := by
        rintro ⟨hx, hx2⟩
        rw [h1] at hx
        rw [← Option.some.inj hx] at hx2
        exact hemp hx2
      rw [if_neg hneg]
      rfl

/-- the en-passant candidate never survives the non-en-passant filter -/
theorem epCandidate_filter (s : State) (fromSq sq : Square) (c : Color)
    (df : Int) (d : Square) :
    (epCandidate s fromSq sq c df).filter
        (fun m => decide (m.to_ = d ∧ m.isEnPassant = false)) = [] := by
  apply filter_ep_nil
  intro m hm
  unfold epCandidate at hm
  split at hm
  · split at hm
    · rw [List.mem_singleton] at hm
      subst hm
      rfl
    · cases hm
  · cases hm

/-- one capture direction of the pawn branch contributes moves onto the
far-rank square `d` exactly when the diagonal is `d` and enemy-occupied — and
then exactly the four promotion moves -/
theorem pawnCaptureAt_filter (s : State) (fromSq : Square) (c : Color)
    (df : Int) (d : Square) (hd : (d.r : Int) = promoRow c) :
    (pawnCaptureAt s fromSq c df).filter
        (fun m => decide (m.to_ = d ∧ m.isEnPassant = false))
      = if toSquare? ((fromSq.r : Int) + pawnDir c) ((fromSq.f : Int) + df) = some d
            ∧ (∃ t, s.board d.r d.f = some t ∧ t.c = c.opp)
        then promoMoves fromSq d else [] := by
  unfold pawnCaptureAt
  split
  · rename_i h1
    have hneg : ¬(toSquare? ((fromSq.r : Int) + pawnDir c) ((fromSq.f : Int) + df) = some d
        ∧ (∃ t, s.board d.r d.f = some t ∧ t.c = c.opp)) := by
      rintro ⟨hx, -⟩
      rw [h1] at hx
      cases hx
    rw [if_neg hneg]
    rfl
  · rename_i sq h1
    rw [List.filter_append, epCandidate_filter, List.append_nil]
    split
    · rename_i t ht
      split
      · rename_i htc
        split
        · rename_i hpr
          by_cases hsq : sq = d
          · subst hsq
            rw [promoMoves_filter_self, if_pos ⟨h1, ⟨t, ht, htc⟩⟩]
          · have hneg : ¬(toSquare? ((fromSq.r : Int) + pawnDir c) ((fromSq.f : Int) + df)
                  = some d
                ∧ (∃ t2, s.board d.r d.f = some t2 ∧ t2.c = c.opp)) := by
              rintro ⟨hx, -⟩
              rw [h1] at hx
              exact hsq (Option.some.inj hx)
            rw [promoMoves_filter_ne fromSq sq d hsq, if_neg hneg]
        · rename_i hpr
          have hr1 : (sq.r : Int) = (fromSq.r : Int) + pawnDir c :=
            (toSquare?_eq_some.mp h1).1
          have hsq : sq ≠ d := by
            intro he
            apply hpr
            rw [← hr1, he, hd]
          have hneg : ¬(toSquare? ((fromSq.r : Int) + pawnDir c) ((fromSq.f : Int) + df)
                = some d
              ∧ (∃ t2, s.board d.r d.f = some t2 ∧ t2.c = c.opp)) := by
            rintro ⟨hx, -⟩
            rw [h1] at hx
            exact hsq (Option.some.inj hx)
          rw [List.filter_cons_of_neg (by simp [mkMove, hsq]), if_neg hneg]
          rfl
      · rename_i htc
        have hneg : ¬(toSquare? ((fromSq.r : Int) + pawnDir c) ((fromSq.f : Int) + df)
              = some d
            ∧ (∃ t2, s.board d.r d.f = some t2 ∧ t2.c = c.opp)) := by
          rintro ⟨hx, t2, ht2, htc2⟩
          rw [h1] at hx
          rw [← Option.some.inj hx] at ht2
          rw [ht] at ht2
          injection ht2 with ht2
          subst ht2
          exact htc htc2
        rw [if_neg hneg]
        rfl
    · rename_i ht
      have hneg : ¬(toSquare? ((fromSq.r : Int) + pawnDir c) ((fromSq.f : Int) + df)
            = some d
          ∧ (∃ t2, s.board d.r d.f = some t2 ∧ t2.c = c.opp)) := by
        rintro ⟨hx, t2, ht2, htc2⟩
        rw [h1] at hx
        rw [← Option.some.inj hx] at ht2
        rw [ht] at ht2
        cases ht2
      rw [if_neg hneg]
      rfl

/-- C4 (amended): for a pawn, every far-rank destination receives either no
non-en-passant move at all or exactly the four promotion-tagged moves (once
per choice queen, rook, bishop, knight); every non-en-passant pawn move
landing on the far rank carries a promotion tag.  (The en-passant candidate
is the one exception to the claim as stated: it is emitted untagged even when
its target lies on the far rank.) -/
theorem pawn_promotion_emission (s : State) (fromSq : Square) (pc : Color)
    (hp : s.board fromSq.r fromSq.f = some ⟨PieceType.p, pc⟩) :
    (∀ d : Square, (d.r : Int) = promoRow pc →
      ((getPseudoLegalMoves s fromSq).filter
          (fun m => decide (m.to_ = d ∧ m.isEnPassant = false)) = []
        ∨ (getPseudoLegalMoves s fromSq).filter
          (fun m => decide (m.to_ = d ∧ m.isEnPassant = false))
          = promoMoves fromSq d))
    ∧ (∀ m ∈ getPseudoLegalMoves s fromSq, m.isEnPassant = false →
        (m.to_.r : Int) = promoRow pc → m.promotion ≠ none) := by
  have hps : getPseudoLegalMoves s fromSq = pawnMoves s fromSq pc := by
    simp only [getPseudoLegalMoves, hp]
  have hmain : ∀ d : Square, (d.r : Int) = promoRow pc →
      ((getPseudoLegalMoves s fromSq).filter
          (fun m => decide (m.to_ = d ∧ m.isEnPassant = false)) = []
        ∨ (getPseudoLegalMoves s fromSq).filter
          (fun m => decide (m.to_ = d ∧ m.isEnPassant = false))
          = promoMoves fromSq d) := by
    intro d hd
    rw [hps]
    unfold pawnMoves
    rw [List.filter_append, List.filter_append,
      pawnForward_filter s fromSq pc d hd,
      pawnCaptureAt_filter s fromSq pc (-1) d hd,
      pawnCaptureAt_filter s fromSq pc 1 d hd]
    by_cases hF : toSquare? ((fromSq.r : Int) + pawnDir pc) (fromSq.f : Int) = some d
        ∧ s.board d.r d.f = none
    · rw [if_pos hF]
      have hdf : (d.f : Int) = (fromSq.f : Int) := (toSquare?_eq_some.mp hF.1).2
      rw [if_neg (by
        rintro ⟨hx, -⟩
        have := (toSquare?_eq_some.mp hx).2
        omega)]
      rw [if_neg (by
        rintro ⟨hx, -⟩
        have := (toSquare?_eq_some.mp hx).2
        omega)]
      right
      simp
    · rw [if_neg hF]
      by_cases hC1 : toSquare? ((fromSq.r : Int) + pawnDir pc) ((fromSq.f : Int) + (-1))
            = some d
          ∧ (∃ t, s.board d.r d.f = some t ∧ t.c = pc.opp)
      · rw [if_pos hC1]
        have hdf : (d.f : Int) = (fromSq.f : Int) + (-1) := (toSquare?_eq_some.mp hC1.1).2
        rw [if_neg (by
          rintro ⟨hx, -⟩
          have := (toSquare?_eq_some.mp hx).2
          omega)]
        right
        simp
      · rw [if_neg hC1]
        by_cases hC2 : toSquare? ((fromSq.r : Int) + pawnDir pc) ((fromSq.f : Int) + 1)
              = some d
            ∧ (∃ t, s.board d.r d.f = some t ∧ t.c = pc.opp)
        · rw [if_pos hC2]
          right
          simp
        · rw [if_neg hC2]
          left
          rfl
  refine ⟨hmain, ?_⟩
  intro m hm hep hr
  have hm2 : m ∈ (getPseudoLegalMoves s fromSq).filter
      (fun mm => decide (mm.to_ = m.to_ ∧ mm.isEnPassant = false)) :=
    List.mem_filter.mpr ⟨hm, decide_eq_true ⟨rfl, hep⟩⟩
  rcases hmain m.to_ hr with hnil | hpro
  · rw [hnil] at hm2
    cases hm2
  · rw [hpro] at hm2
    exact mem_promoMoves hm2

/-- C4 witness: a white pawn on (1,3) with the far rank empty; the square
(0,3) receives exactly the four promotion moves. -/
theorem pawn_promotion_emission_witness :
    (getPseudoLegalMoves Fixtures.sPromo ⟨1, 3⟩).filter
        (fun m => decide (m.to_ = ⟨0, 3⟩ ∧ m.isEnPassant = false)) = []
    ∨ (getPseudoLegalMoves Fixtures.sPromo ⟨1, 3⟩).filter
        (fun m => decide (m.to_ = ⟨0, 3⟩ ∧ m.isEnPassant = false))
      = promoMoves ⟨1, 3⟩ ⟨0, 3⟩ :=
  (pawn_promotion_emission Fixtures.sPromo ⟨1, 3⟩ Color.w (by decide)).1
    ⟨0, 3⟩ (by decide)

/-- C4 counterexample: with a (contrived) en-passant target on the far rank,
the pawn's pseudo-legal list contains a move landing on row 0 with no
promotion tag — the en-passant capture — refuting the claim as stated. -/
theorem pawn_ep_far_rank_cex :
    Fixtures.sEpFar.board 1 0 = some ⟨PieceType.p, Color.w⟩
    ∧ getPseudoLegalMoves Fixtures.sEpFar ⟨1, 0⟩
        = [⟨⟨1, 0⟩, ⟨0, 1⟩, none, true, false⟩]
    ∧ ((⟨⟨1, 0⟩, ⟨0, 1⟩, none, true, false⟩ : Move).to_.r : Int) = promoRow Color.w
    ∧ (⟨⟨1, 0⟩, ⟨0, 1⟩, none, true, false⟩ : Move).promotion = none := by
  refine ⟨by decide, by decide, by decide, by decide⟩

end Proto
